import Mathlib

/-!
Verification of `scripts/dev/src2asciidoc.py`, the asciidoc documentation
generator of qutebrowser.

Modelling conventions:
* A text file is a list of newline-terminated lines (`List String`, the lines
  given without their trailing newline).  `str.strip()` is `String.trim`,
  `str.upper()` is `String.toUpper`.
* The new data handed to `_format_block` is likewise a list of lines.
* Fallible Python code (raising `Exception` / `KeyError` / `ValueError`)
  is modelled with `Except String`, the error string being the exception
  message.
* The on-disk effect of `_format_block` (temporary file creation, removal on
  failure, move on success) is modelled by an explicit `FileState`.
-/

namespace Src2Asciidoc

/-- Python's `str.strip()` with no argument: remove leading and trailing
whitespace.  Implemented by structural recursion over the character list so
that concrete instances evaluate. -/
def pyStrip (s : String) : String :=
  String.mk
    (((s.data.dropWhile Char.isWhitespace).reverse.dropWhile
        Char.isWhitespace).reverse)

/-- Python's `str.upper()`: upper-case every character. -/
def pyUpper (s : String) : String :=
  String.mk (s.data.map Char.toUpper)

/-- The start sentinel line `// QUTE_<WHAT>_START` (line 507 of the source),
for a block name `what` that the caller has already upper-cased. -/
def startMarker (what : String) : String :=
  "// QUTE_" ++ what ++ "_START"

/-- The end sentinel line `// QUTE_<WHAT>_END`.  Line 511 of the source
applies `.upper()` once more to the already upper-cased name, which the
model mirrors. -/
def endMarker (what : String) : String :=
  "// QUTE_" ++ pyUpper what ++ "_END"

/-- The copy loop of `_format_block` (source lines 504-514): walk the input
lines with the two flags `found_start` / `found_end`, producing the lines
written to the temporary file together with the final flag values.
A line whose stripped form equals the start sentinel is copied, followed by
the whole new `data`; a line matching the end sentinel is copied; any other
line is copied exactly when `(not found_start) or found_end`. -/
def fbLoop (sm em : String) (data : List String) :
    List String → Bool → Bool → List String × Bool × Bool
  | [], foundStart, foundEnd => ([], foundStart, foundEnd)
  | line :: rest, foundStart, foundEnd =>
    if pyStrip line = sm then
      (line :: (data ++ (fbLoop sm em data rest true foundEnd).1),
       (fbLoop sm em data rest true foundEnd).2)
    else if pyStrip line = em then
      (line :: (fbLoop sm em data rest foundStart true).1,
       (fbLoop sm em data rest foundStart true).2)
    else if !foundStart || foundEnd then
      (line :: (fbLoop sm em data rest foundStart foundEnd).1,
       (fbLoop sm em data rest foundStart foundEnd).2)
    else
      fbLoop sm em data rest foundStart foundEnd

/-- The on-disk state relevant to `_format_block`: the target file's lines
and whether the temporary file created by `tempfile.mkstemp` still exists. -/
structure FileState where
  content : List String
  tmpExists : Bool
deriving DecidableEq, Repr

/-- Model of `_format_block(filename, what, data)` (source lines 484-527).  The block
name is upper-cased, the file is copied line by line to a fresh temporary
file with the block content replaced by `data`; if either sentinel was never
seen, an `Exception` naming the missing marker and the file is raised, the
temporary file is removed (`os.remove(tmpname)` in the `except` branch) and
the target file is untouched; otherwise the temporary file replaces the
target file. -/
def _format_block (filename : String) (what : String) (data : List String)
    (st : FileState) : Except String Unit × FileState :=
  let w := pyUpper what
  let sm := startMarker w
  let em := endMarker w
  let r := fbLoop sm em data st.content false false
  if !r.2.1 then
    (Except.error ("Marker '" ++ sm ++ "' not found in '" ++ filename ++ "'!"),
     { content := st.content, tmpExists := false })
  else if !r.2.2 then
    (Except.error ("Marker '" ++ em ++ "' not found in '" ++ filename ++ "'!"),
     { content := st.content, tmpExists := false })
  else
    (Except.ok (), { content := r.1, tmpExists := false })

/-- An argparse metavar attribute: absent (`None`), a plain string, or a
tuple of strings. -/
inductive Metavar where
  | none
  | str (s : String)
  | tuple (elems : List String)
deriving DecidableEq, Repr

/-- An argparse nargs arity: `None`, `'?'`, `'*'`, `'+'`,
`'...'` (`argparse.REMAINDER`), or an exact integer. -/
inductive Nargs where
  | none
  | optional
  | zeroOrMore
  | oneOrMore
  | remainder
  | exact (n : Nat)
deriving DecidableEq, Repr

/-- The `argparse.SUPPRESS` sentinel string. -/
def SUPPRESS : String := "==SUPPRESS=="

/-- An argparse action, the "ParserAction" of the data model: destination
name, option strings (empty for positionals), metavar, choice set, nargs
arity and help text (possibly the `SUPPRESS` sentinel). -/
structure Action where
  dest : String
  option_strings : List String
  metavar : Metavar
  choices : Option (List String)
  nargs : Nargs
  help : String
deriving DecidableEq, Repr

/-- Model of `_get_action_metavar(action, nargs=1)` (source lines 311-328):
an explicit string metavar is broadcast `nargs` times and each copy quoted;
a tuple metavar is used positionally; otherwise a brace-enclosed
comma-joined choice list, or the upper-cased destination, quoted. -/
def _get_action_metavar (action : Action) (nargs : Nat) : String :=
  match action.metavar with
  | Metavar.str s =>
      String.intercalate " " (List.replicate nargs ("'" ++ s ++ "'"))
  | Metavar.tuple elems =>
      String.intercalate " " (elems.map (fun el => "'" ++ el ++ "'"))
  | Metavar.none =>
      match action.choices with
      | Option.some cs => "'\x7b" ++ String.intercalate "," cs ++ "\x7d'"
      | Option.none => "'" ++ pyUpper action.dest ++ "'"

/-- Model of `_format_action_args(action)` (source lines 331-344): the
arity-driven argument string. -/
def _format_action_args (action : Action) : String :=
  match action.nargs with
  | Nargs.none => _get_action_metavar action 1
  | Nargs.optional => "[" ++ _get_action_metavar action 1 ++ "]"
  | Nargs.zeroOrMore =>
      "[" ++ _get_action_metavar action 1 ++ " [" ++
        _get_action_metavar action 1 ++ " ...]]"
  | Nargs.oneOrMore =>
      _get_action_metavar action 1 ++ " [" ++
        _get_action_metavar action 1 ++ " ...]"
  | Nargs.remainder => "..."
  | Nargs.exact n => _get_action_metavar action n

/-- Model of `_format_action(action)` (source lines 347-364): `None` when
the help is suppressed, otherwise the invocation line followed by the
indented help. -/
def _format_action (action : Action) : Option String :=
  if action.help = SUPPRESS then
    Option.none
  else
    let invocation :=
      if action.option_strings = [] then
        "*" ++ _get_action_metavar action 1 ++ "*::"
      else
        let parts :=
          if action.nargs = Nargs.exact 0 then
            action.option_strings.map (fun s => "*" ++ s ++ "*")
          else
            action.option_strings.map (fun opt =>
              "*" ++ opt ++ "* " ++ _format_action_args action)
        String.intercalate ", " parts ++ "::"
    Option.some (invocation ++ "\n    " ++ action.help ++ "\n")

/-- An argparse argument group as walked by `regenerate_manpage`: its title,
optional description and contained actions. -/
structure ArgGroup where
  title : String
  description : Option String
  group_actions : List Action
deriving DecidableEq, Repr

/-- The argparse parser structure read by `regenerate_manpage`: the action
groups in declaration order and the optional epilog. -/
structure ArgumentParser where
  action_groups : List ArgGroup
  epilog : Option String
deriving DecidableEq, Repr

/-- Per-group content built by `regenerate_manpage` (source lines 536-544):
heading, optional description, then one rendered invocation per action,
skipping those for which `_format_action` returns `None`. -/
def groupData (group : ArgGroup) : List String :=
  ["=== " ++ group.title] ++
    (match group.description with
     | Option.some d => [d]
     | Option.none => []) ++
    group.group_actions.filterMap _format_action

/-- The complete OPTIONS fragment of `regenerate_manpage` (source lines
530-551): groups joined by newlines, with the epilog appended verbatim when
present. -/
def manpageOptions (p : ArgumentParser) : String :=
  let groups := p.action_groups.map
    (fun g => String.intercalate "\n" (groupData g))
  let options := String.intercalate "\n" groups
  match p.epilog with
  | Option.some ep => options ++ ep
  | Option.none => options

/-- Model of `UsageFormatter._format_actions_usage` (source lines 100-115):
save each action's option strings, overwrite them with the emphasised
versions, run the inherited formatter (an external argparse routine, passed
in as `superFormat`), then restore the saved strings.  The returned pair is
the usage string and the final state of the action objects. -/
def _format_actions_usage (superFormat : List Action → String)
    (actions : List Action) : String × List Action :=
  let old_option_strings := actions.map (fun a => a.option_strings)
  let patched := actions.map (fun a =>
    { a with option_strings :=
        a.option_strings.map (fun s => "*" ++ s ++ "*") })
  let ret := superFormat patched
  let restored := (patched.zip old_option_strings).map
    (fun p => { p.1 with option_strings := p.2 })
  (ret, restored)

/-- A qutebrowser backend (`usertypes.Backend`). -/
inductive Backend where
  | QtWebKit
  | QtWebEngine
deriving DecidableEq, Repr

/-- The value attached to a backend name in a raw per-backend override
mapping: Python `True`, Python `False`, or any other value (a version
requirement, rendered through `format`). -/
inductive BackendCond where
  | whenTrue
  | whenFalse
  | version (v : String)
deriving DecidableEq, Repr

/-- The slice of a `SettingDescriptor` read by
`_generate_setting_backend_info`: the per-backend override mapping
(`opt.raw_backends`, given as its name-sorted item list, or `None`) and the
simple backend list (`opt.backends`). -/
structure Opt where
  raw_backends : Option (List (String × BackendCond))
  backends : List Backend
deriving DecidableEq, Repr

/-- Stand-in for Python `repr` on a backend list, used only inside the
`ValueError` message text. -/
def backendListRepr (bs : List Backend) : String :=
  "[" ++ String.intercalate ", "
    (bs.map (fun b =>
      match b with
      | Backend.QtWebKit => "<Backend.QtWebKit: 1>"
      | Backend.QtWebEngine => "<Backend.QtWebEngine: 2>")) ++ "]"

/-- Model of `_generate_setting_backend_info(f, opt)` (source lines
412-434), returning the list of notices written to `f`, or the `ValueError`
raised for an unrecognised simple backend list. -/
def _generate_setting_backend_info (opt : Opt) :
    Except String (List String) :=
  match opt.raw_backends with
  | Option.some items =>
      Except.ok (items.flatMap (fun p =>
        match p.2 with
        | BackendCond.whenTrue => []
        | BackendCond.whenFalse =>
            ["\nOn " ++ p.1 ++ ", this setting is unavailable.\n"]
        | BackendCond.version v =>
            ["\nOn " ++ p.1 ++ ", this setting requires " ++ v ++
              " or newer.\n"]))
  | Option.none =>
      if opt.backends = [Backend.QtWebKit, Backend.QtWebEngine] then
        Except.ok []
      else if opt.backends = [Backend.QtWebKit] then
        Except.ok
          ["\nThis setting is only available with the QtWebKit backend.\n"]
      else if opt.backends = [Backend.QtWebEngine] then
        Except.ok
          ["\nThis setting is only available with the QtWebEngine backend.\n"]
      else
        Except.error ("Invalid value " ++ backendListRepr opt.backends ++
          " for opt.backends")

/-- A qutebrowser key mode (`usertypes.KeyMode`); `normal` is the default
interaction mode. -/
inductive KeyMode where
  | normal
  | insert
  | hint
  | passthrough
  | caret
  | prompt
  | command
  | register
  | yesno
deriving DecidableEq, Repr

/-- The result of `docutils.DocstringParser` on a command handler (external
to this core): short description, long description (empty string when
absent, matching Python truthiness) and the argument-description lookup
(`arg_descs`, a mapping modelled as an association list). -/
structure DocstringParser where
  short_desc : String
  long_desc : String
  arg_descs : List (String × String)
deriving DecidableEq, Repr

/-- Python dict lookup in `arg_descs`: first matching key, else `KeyError`
(modelled as `Option.none`). -/
def lookupDesc (descs : List (String × String)) (k : String) :
    Option String :=
  match descs.find? (fun p => p.1 = k) with
  | Option.some p => Option.some p.2
  | Option.none => Option.none

/-- One parameter of a command handler's signature.  `is_count` models the
introspective test `cmd.get_arg_info(param).value in
cmd.COUNT_COMMAND_VALUES` of source line 273. -/
structure Param where
  name : String
  is_count : Bool
deriving DecidableEq, Repr

/-- The formatter class installed on a command's argparse parser. -/
inductive FormatterClass where
  | helpFormatter
  | usageFormatter
deriving DecidableEq, Repr

/-- A command's argparse parser as used by ` _get_cmd_syntax`: its mutable
`formatter_class` attribute and the external `format_usage` routine, whose
output may depend on the installed formatter class. -/
structure CmdParser where
  formatter_class : FormatterClass
  render_usage : FormatterClass → String

/-- A registered command (the `CommandDescriptor` of the data model):
name, positional arguments as (arg-key, display-name) pairs, optional
arguments as (arg-key, (long-flag, short-flag)) items, handler signature
parameters, behavioural flags, mode restriction set, deprecation and debug
flags, the handler docstring (for the quick reference) and its parsed form,
and the command's parser object. -/
structure Command where
  name : String
  pos_args : List (String × String)
  opt_args : List (String × (String × String))
  params : List Param
  maxsplit : Option Nat
  no_cmd_split : Bool
  no_replace_variables : Bool
  deprecated : Bool
  modes : List KeyMode
  debug : Bool
  handler_doc : String
  docstring : DocstringParser
  parser : CmdParser

/-- Python's `str.rstrip()`: remove trailing whitespace. -/
def pyRstrip (s : String) : String :=
  String.mk ((s.data.reverse.dropWhile Char.isWhitespace).reverse)

/-- The first line of a string (`.splitlines()[0]`). -/
def firstLine (s : String) : String :=
  String.mk (s.data.takeWhile (fun c => c ≠ '\n'))

/-- Model of ` _get_cmd_syntax(_name, cmd)` (source lines 136-146): install
`UsageFormatter` as the parser's formatter class, render the usage line,
strip trailing whitespace, then restore the previous formatter class.  The
returned pair is the usage string and the final state of the command. -/
def _get_cmd_syntax (_name : String) (cmd : Command) : String × Command :=
  let old_fmt_class := cmd.parser.formatter_class
  let parser1 : CmdParser :=
    { cmd.parser with formatter_class := FormatterClass.usageFormatter }
  let usage := pyRstrip (parser1.render_usage parser1.formatter_class)
  let parser2 : CmdParser := { parser1 with formatter_class := old_fmt_class }
  (usage, { cmd with parser := parser2 })

/-- The positional-argument bullets of `_get_command_doc_args` (source
lines 240-248), raising `KeyError` on a missing description. -/
def posArgLines (cmdName : String) (descs : List (String × String)) :
    List (String × String) → Except String (List String)
  | [] => Except.ok []
  | (arg, name) :: rest =>
    match lookupDesc descs arg with
    | Option.some d =>
        (posArgLines cmdName descs rest).map
          (fun ls => ("* +'" ++ name ++ "'+: " ++ d) :: ls)
    | Option.none =>
        Except.error ("No description for arg '" ++ arg ++
          "' of command '" ++ cmdName ++ "'!")

/-- The optional-argument bullets of `_get_command_doc_args` (source lines
250-259), raising `KeyError` on a missing description. -/
def optArgLines (cmdName : String) (descs : List (String × String)) :
    List (String × (String × String)) → Except String (List String)
  | [] => Except.ok []
  | (arg, (long_flag, short_flag)) :: rest =>
    match lookupDesc descs arg with
    | Option.some d =>
        (optArgLines cmdName descs rest).map
          (fun ls => ("* +*" ++ short_flag ++ "*+, +*" ++ long_flag ++
            "*+: " ++ d) :: ls)
    | Option.none =>
        Except.error ("No description for arg '" ++ arg ++
          "' of command '" ++ cmdName ++ "'!")

/-- Model of `_get_command_doc_args(cmd, parser)` (source lines 230-259):
the positional section (when `cmd.pos_args` is non-empty), then the
optional section (when `cmd.opt_args` is non-empty); a `KeyError` from
either section propagates. -/
def _get_command_doc_args (cmd : Command) (dp : DocstringParser) :
    Except String (List String) :=
  match (if cmd.pos_args ≠ [] then
          (posArgLines cmd.name dp.arg_descs cmd.pos_args).map
            (fun ls => ["", "==== positional arguments"] ++ ls)
        else Except.ok []) with
  | Except.error msg => Except.error msg
  | Except.ok posPart =>
    match (if cmd.opt_args ≠ [] then
            (optArgLines cmd.name dp.arg_descs cmd.opt_args).map
              (fun ls => ["", "==== optional arguments"] ++ ls)
          else Except.ok []) with
    | Except.error msg => Except.error msg
    | Except.ok optPart => Except.ok (posPart ++ optPart)

/-- The per-parameter loop of `_get_command_doc_count` (source lines
272-284): for each count parameter, look the description up by parameter
name, fall back to the literal key `count`, and raise `KeyError` naming the
parameter and the command when neither is present. -/
def countLines (cmdName : String) (descs : List (String × String)) :
    List Param → Except String (List String)
  | [] => Except.ok []
  | p :: rest =>
    if p.is_count then
      match lookupDesc descs p.name with
      | Option.some d =>
          (countLines cmdName descs rest).map
            (fun ls => ["", "==== count", d] ++ ls)
      | Option.none =>
          match lookupDesc descs "count" with
          | Option.some d =>
              (countLines cmdName descs rest).map
                (fun ls => ["", "==== count", d] ++ ls)
          | Option.none =>
              Except.error ("No description for count arg '" ++ p.name ++
                "' of command '" ++ cmdName ++ "'!")
    else countLines cmdName descs rest

/-- Model of `_get_command_doc_count(cmd, parser)` (source lines
262-284). -/
def _get_command_doc_count (cmd : Command) (dp : DocstringParser) :
    Except String (List String) :=
  countLines cmd.name dp.arg_descs cmd.params

/-- Model of `_get_command_doc_notes(cmd)` (source lines 287-308). -/
def _get_command_doc_notes (cmd : Command) : List String :=
  if cmd.maxsplit ≠ Option.none ∨ cmd.no_cmd_split = true ∨
      (cmd.no_replace_variables = true ∧ cmd.name ≠ "spawn") then
    ["", "==== note"] ++
    (if cmd.maxsplit ≠ Option.none then
      ["* This command does not split arguments after the last argument and handles quotes literally."]
    else []) ++
    (if cmd.no_cmd_split = true then
      ["* With this command, +;;+ is interpreted literally instead of splitting off a second command."]
    else []) ++
    (if cmd.no_replace_variables = true ∧ cmd.name ≠ "spawn" then
      ["* This command does not replace variables like +\\\x7burl\\\x7d+."]
    else [])
  else []

/-- Model of `_get_command_doc(name, cmd)` (source lines 207-227). -/
def _get_command_doc (name : String) (cmd : Command) :
    Except String String := do
  let output := ["[[" ++ name ++ "]]", "=== " ++ name]
  let syn := ( _get_cmd_syntax name cmd).1
  let output := output ++
    (if syn ≠ name then ["Syntax: +:" ++ syn ++ "+", ""] else [])
  let output := output ++ [cmd.docstring.short_desc]
  let output := output ++
    (if cmd.docstring.long_desc ≠ "" then ["", cmd.docstring.long_desc]
     else [])
  let args ← _get_command_doc_args cmd cmd.docstring
  let cnt ← _get_command_doc_count cmd cmd.docstring
  let notes := _get_command_doc_notes cmd
  pure (String.intercalate "\n"
    (output ++ args ++ cnt ++ notes ++ ["", ""]))

/-- Model of `_get_command_quickref(cmds)` (source lines 149-159). -/
def _get_command_quickref (cmds : List (String × Command)) : String :=
  String.intercalate "\n"
    (["[options=\"header\",width=\"75%\",cols=\"25%,75%\"]",
      "|==============",
      "|Command|Description"] ++
     cmds.map (fun p =>
       "|<<" ++ p.1 ++ "," ++ p.1 ++ ">>|" ++ firstLine p.2.handler_doc) ++
     ["|=============="])

/-- The `FILE_HEADER` banner (source lines 44-50). -/
def FILE_HEADER : String :=
  "// DO NOT EDIT THIS FILE DIRECTLY!\n// It is autogenerated by running:\n//   $ python3 scripts/dev/src2asciidoc.py\n// vim: readonly:\n\n"

/-- The classification loop of `generate_commands` (source lines 376-384):
deprecated commands are dropped; a command whose mode restriction excludes
`normal` goes to the `other` bucket; else a debug command goes to the
`debug` bucket; else to the `normal` bucket.  Returned as
(normal, other, debug), in iteration order. -/
def classifyCommands (cmds : List (String × Command)) :
    List (String × Command) × List (String × Command) ×
      List (String × Command) :=
  match cmds with
  | [] => ([], [], [])
  | (name, cmd) :: rest =>
    let r := classifyCommands rest
    if cmd.deprecated then r
    else if KeyMode.normal ∉ cmd.modes then
      (r.1, (name, cmd) :: r.2.1, r.2.2)
    else if cmd.debug then
      (r.1, r.2.1, (name, cmd) :: r.2.2)
    else
      ((name, cmd) :: r.1, r.2.1, r.2.2)

/-- The comparison used by the `.sort()` calls of `generate_commands`
(source lines 385-387): Python sorts the `(name, cmd)` tuples, which with
unique names is a lexicographic sort on the name strings. -/
def cmdLe (a b : String × Command) : Prop := a.1 ≤ b.1

instance : DecidableRel cmdLe :=
  fun a b => inferInstanceAs (Decidable (a.1 ≤ b.1))

instance : IsTotal (String × Command) cmdLe :=
  ⟨fun a b => le_total a.1 b.1⟩

instance : IsTrans (String × Command) cmdLe :=
  ⟨fun _ _ _ h1 h2 => le_trans h1 h2⟩

/-- The three buckets of `generate_commands` after the `.sort()` calls. -/
def sortedBuckets (cmds : List (String × Command)) :
    List (String × Command) × List (String × Command) ×
      List (String × Command) :=
  let b := classifyCommands cmds
  (List.insertionSort cmdLe b.1, List.insertionSort cmdLe b.2.1,
    List.insertionSort cmdLe b.2.2)

/-- Model of `generate_commands(filename)` (source lines 367-409), returning
the full text written to the file.  `commandsModuleDoc` stands for the
external module docstring `commands.__doc__`. -/
def generate_commands (commandsModuleDoc : String)
    (cmds : List (String × Command)) : Except String String := do
  let b := sortedBuckets cmds
  let normalDocs ← b.1.mapM (fun p => _get_command_doc p.1 p.2)
  let otherDocs ← b.2.1.mapM (fun p => _get_command_doc p.1 p.2)
  let debugDocs ← b.2.2.mapM (fun p => _get_command_doc p.1 p.2)
  pure (FILE_HEADER ++ "= Commands\n\n" ++ commandsModuleDoc ++
    "\n" ++ "== Normal commands\n" ++ ".Quick reference\n" ++
    _get_command_quickref b.1 ++ "\n" ++ String.join normalDocs ++
    "\n" ++ "== Commands not usable in normal mode\n" ++
    ".Quick reference\n" ++
    _get_command_quickref b.2.1 ++ "\n" ++ String.join otherDocs ++
    "\n" ++ "== Debugging commands\n" ++
    "These commands are mainly intended for debugging. They are hidden if qutebrowser was started without the `--debug`-flag.\n" ++
    "\n" ++ ".Quick reference\n" ++
    _get_command_quickref b.2.2 ++ "\n" ++ String.join debugDocs)

theorem fbLoop_cons_start {sm em line : String} (data rest : List String)
    (fs fe : Bool) (h1 : pyStrip line = sm) :
    fbLoop sm em data (line :: rest) fs fe =
      (line :: (data ++ (fbLoop sm em data rest true fe).1),
       (fbLoop sm em data rest true fe).2) := by
  simp only [fbLoop]
  rw [if_pos h1]

theorem fbLoop_cons_end {sm em line : String} (data rest : List String)
    (fs fe : Bool) (h1 : pyStrip line ≠ sm) (h2 : pyStrip line = em) :
    fbLoop sm em data (line :: rest) fs fe =
      (line :: (fbLoop sm em data rest fs true).1,
       (fbLoop sm em data rest fs true).2) := by
  simp only [fbLoop]
  rw [if_neg h1, if_pos h2]

theorem fbLoop_cons_copy {sm em line : String} (data rest : List String)
    (fs fe : Bool) (h1 : pyStrip line ≠ sm) (h2 : pyStrip line ≠ em)
    (h3 : (!fs || fe) = true) :
    fbLoop sm em data (line :: rest) fs fe =
      (line :: (fbLoop sm em data rest fs fe).1,
       (fbLoop sm em data rest fs fe).2) := by
  simp only [fbLoop]
  rw [if_neg h1, if_neg h2, if_pos h3]

theorem fbLoop_cons_skip {sm em line : String} (data rest : List String)
    (h1 : pyStrip line ≠ sm) (h2 : pyStrip line ≠ em) :
    fbLoop sm em data (line :: rest) true false =
      fbLoop sm em data rest true false := by
  simp only [fbLoop]
  rw [if_neg h1, if_neg h2, if_neg (by simp)]

/-- Flag `found_start` can only end up set if it started set or some line strips
to the start sentinel. -/
theorem fbLoop_foundStart_src (sm em : String) (data : List String) :
    ∀ (lines : List String) (fs fe : Bool),
      (fbLoop sm em data lines fs fe).2.1 = true →
        fs = true ∨ ∃ l ∈ lines, pyStrip l = sm
  | [], fs, fe => by simp [fbLoop]
  | line :: rest, fs, fe => by
    by_cases h1 : pyStrip line = sm
    · intro _
      exact Or.inr ⟨line, by simp, h1⟩
    · by_cases h2 : pyStrip line = em
      · rw [fbLoop_cons_end data rest fs fe h1 h2]
        intro h
        rcases fbLoop_foundStart_src sm em data rest fs true h with h | ⟨l, hl, hls⟩
        · exact Or.inl h
        · exact Or.inr ⟨l, by simp [hl], hls⟩
      · by_cases h3 : (!fs || fe) = true
        · rw [fbLoop_cons_copy data rest fs fe h1 h2 h3]
          intro h
          rcases fbLoop_foundStart_src sm em data rest fs fe h with h | ⟨l, hl, hls⟩
          · exact Or.inl h
          · exact Or.inr ⟨l, by simp [hl], hls⟩
        · have hfs : fs = true := by rcases fs with _ | _ <;> simp_all
          intro _
          exact Or.inl hfs

/-- Flag `found_end` can only end up set if it started set or some line strips
to the end sentinel. -/
theorem fbLoop_foundEnd_src (sm em : String) (data : List String) :
    ∀ (lines : List String) (fs fe : Bool),
      (fbLoop sm em data lines fs fe).2.2 = true →
        fe = true ∨ ∃ l ∈ lines, pyStrip l = em
  | [], fs, fe => by simp [fbLoop]
  | line :: rest, fs, fe => by
    by_cases h1 : pyStrip line = sm
    · rw [fbLoop_cons_start data rest fs fe h1]
      intro h
      rcases fbLoop_foundEnd_src sm em data rest true fe h with h | ⟨l, hl, hls⟩
      · exact Or.inl h
      · exact Or.inr ⟨l, by simp [hl], hls⟩
    · by_cases h2 : pyStrip line = em
      · intro _
        exact Or.inr ⟨line, by simp, h2⟩
      · by_cases h3 : (!fs || fe) = true
        · rw [fbLoop_cons_copy data rest fs fe h1 h2 h3]
          intro h
          rcases fbLoop_foundEnd_src sm em data rest fs fe h with h | ⟨l, hl, hls⟩
          · exact Or.inl h
          · exact Or.inr ⟨l, by simp [hl], hls⟩
        · have hfe : fe = false := by rcases fe with _ | _ <;> simp_all
          have hfs : fs = true := by rcases fs with _ | _ <;> simp_all
          subst hfe; subst hfs
          rw [fbLoop_cons_skip data rest h1 h2]
          intro h
          rcases fbLoop_foundEnd_src sm em data rest true false h with h | ⟨l, hl, hls⟩
          · exact Or.inl h
          · exact Or.inr ⟨l, by simp [hl], hls⟩

/-- Lines matching neither sentinel are copied verbatim as long as
`found_start` is unset or `found_end` is set, leaving the flags alone. -/
theorem fbLoop_copy_all (sm em : String) (data : List String) :
    ∀ (p : List String) (fs fe : Bool),
      (∀ l ∈ p, pyStrip l ≠ sm ∧ pyStrip l ≠ em) →
      (fs = false ∨ fe = true) →
      fbLoop sm em data p fs fe = (p, fs, fe)
  | [], fs, fe, _, _ => by simp [fbLoop]
  | line :: p, fs, fe, hp, hcopy => by
    have h1 : pyStrip line ≠ sm := (hp line (by simp)).1
    have h2 : pyStrip line ≠ em := (hp line (by simp)).2
    have h3 : (!fs || fe) = true := by rcases hcopy with h | h <;> simp [h]
    rw [fbLoop_cons_copy data p fs fe h1 h2 h3,
      fbLoop_copy_all sm em data p fs fe (fun l hl => hp l (by simp [hl])) hcopy]

/-- Prefix version of `fbLoop_copy_all`: a block of non-sentinel lines at the
front is copied and the loop continues on the rest. -/
theorem fbLoop_copy_append (sm em : String) (data : List String) :
    ∀ (p rest : List String) (fs fe : Bool),
      (∀ l ∈ p, pyStrip l ≠ sm ∧ pyStrip l ≠ em) →
      (fs = false ∨ fe = true) →
      fbLoop sm em data (p ++ rest) fs fe =
        (p ++ (fbLoop sm em data rest fs fe).1,
         (fbLoop sm em data rest fs fe).2)
  | [], rest, fs, fe, _, _ => by simp
  | line :: p, rest, fs, fe, hp, hcopy => by
    have h1 : pyStrip line ≠ sm := (hp line (by simp)).1
    have h2 : pyStrip line ≠ em := (hp line (by simp)).2
    have h3 : (!fs || fe) = true := by rcases hcopy with h | h <;> simp [h]
    rw [List.cons_append, fbLoop_cons_copy data (p ++ rest) fs fe h1 h2 h3,
      fbLoop_copy_append sm em data p rest fs fe
        (fun l hl => hp l (by simp [hl])) hcopy]
    simp

/-- Between the sentinels (`found_start` set, `found_end` unset), a block of
non-sentinel lines is dropped. -/
theorem fbLoop_skip_append (sm em : String) (data : List String) :
    ∀ (p rest : List String),
      (∀ l ∈ p, pyStrip l ≠ sm ∧ pyStrip l ≠ em) →
      fbLoop sm em data (p ++ rest) true false =
        fbLoop sm em data rest true false
  | [], rest, _ => by simp
  | line :: p, rest, hp => by
    have h1 : pyStrip line ≠ sm := (hp line (by simp)).1
    have h2 : pyStrip line ≠ em := (hp line (by simp)).2
    rw [List.cons_append, fbLoop_cons_skip data (p ++ rest) h1 h2,
      fbLoop_skip_append sm em data p rest (fun l hl => hp l (by simp [hl]))]

/-- Behaviour of the copy loop on a well-formed file: prefix, one
start-sentinel line, middle (dropped, replaced by `data`), one end-sentinel
line, suffix. -/
theorem fbLoop_replace (sm em : String) (data : List String)
    (pre mid suf : List String) (s e : String)
    (hs : pyStrip s = sm) (he : pyStrip e = em) (hes : pyStrip e ≠ sm)
    (hpre : ∀ l ∈ pre, pyStrip l ≠ sm ∧ pyStrip l ≠ em)
    (hmid : ∀ l ∈ mid, pyStrip l ≠ sm ∧ pyStrip l ≠ em)
    (hsuf : ∀ l ∈ suf, pyStrip l ≠ sm ∧ pyStrip l ≠ em) :
    fbLoop sm em data (pre ++ s :: (mid ++ e :: suf)) false false =
      (pre ++ s :: (data ++ e :: suf), true, true) := by
  rw [fbLoop_copy_append sm em data pre (s :: (mid ++ e :: suf)) false false
      hpre (Or.inl rfl),
    fbLoop_cons_start data (mid ++ e :: suf) false false hs,
    fbLoop_skip_append sm em data mid (e :: suf) hmid,
    fbLoop_cons_end data suf true false hes he,
    fbLoop_copy_all sm em data suf true true hsuf (Or.inr rfl)]

/-- Behaviour of the copy loop when the end sentinel precedes the start
sentinel: every line is copied and `data` is inserted right after the
start-sentinel line. -/
theorem fbLoop_reversed (sm em : String) (data : List String)
    (pre mid suf : List String) (s e : String)
    (hs : pyStrip s = sm) (he : pyStrip e = em) (hes : pyStrip e ≠ sm)
    (hpre : ∀ l ∈ pre, pyStrip l ≠ sm ∧ pyStrip l ≠ em)
    (hmid : ∀ l ∈ mid, pyStrip l ≠ sm ∧ pyStrip l ≠ em)
    (hsuf : ∀ l ∈ suf, pyStrip l ≠ sm ∧ pyStrip l ≠ em) :
    fbLoop sm em data (pre ++ e :: (mid ++ s :: suf)) false false =
      (pre ++ e :: (mid ++ s :: (data ++ suf)), true, true) := by
  rw [fbLoop_copy_append sm em data pre (e :: (mid ++ s :: suf)) false false
      hpre (Or.inl rfl),
    fbLoop_cons_end data (mid ++ s :: suf) false false hes he,
    fbLoop_copy_append sm em data mid (s :: suf) false true hmid (Or.inr rfl),
    fbLoop_cons_start data suf false true hs,
    fbLoop_copy_all sm em data suf true true hsuf (Or.inr rfl)]

/-- C1: if the start sentinel line is never observed, or the end sentinel
line is never observed, `_format_block` raises a descriptive error naming
the missing marker and the target file, the target file's content is
unchanged, and the temporary file is removed. -/
theorem format_block_missing_marker (filename what : String)
    (data : List String) (st : FileState)
    (h : (∀ l ∈ st.content, pyStrip l ≠ startMarker (pyUpper what)) ∨
         (∀ l ∈ st.content, pyStrip l ≠ endMarker (pyUpper what))) :
    ∃ msg,
      _format_block filename what data st =
        (Except.error msg, { content := st.content, tmpExists := false }) ∧
      (msg = "Marker '" ++ startMarker (pyUpper what) ++ "' not found in '" ++
          filename ++ "'!" ∨
       msg = "Marker '" ++ endMarker (pyUpper what) ++ "' not found in '" ++
          filename ++ "'!") := by
  rcases h with hA | hB
  · have hfs : (fbLoop (startMarker (pyUpper what)) (endMarker (pyUpper what))
        data st.content false false).2.1 = false := by
      rcases hflag : (fbLoop (startMarker (pyUpper what))
          (endMarker (pyUpper what)) data st.content false false).2.1
      · rfl
      · rcases fbLoop_foundStart_src _ _ data st.content false false hflag with
          h' | ⟨l, hl, hls⟩
        · exact absurd h' (by simp)
        · exact absurd hls (hA l hl)
    refine ⟨_, ?_, Or.inl rfl⟩
    simp only [_format_block]
    rw [hfs]
    simp
  · have hfe : (fbLoop (startMarker (pyUpper what)) (endMarker (pyUpper what))
        data st.content false false).2.2 = false := by
      rcases hflag : (fbLoop (startMarker (pyUpper what))
          (endMarker (pyUpper what)) data st.content false false).2.2
      · rfl
      · rcases fbLoop_foundEnd_src _ _ data st.content false false hflag with
          h' | ⟨l, hl, hls⟩
        · exact absurd h' (by simp)
        · exact absurd hls (hB l hl)
    rcases hfs : (fbLoop (startMarker (pyUpper what)) (endMarker (pyUpper what))
        data st.content false false).2.1
    · refine ⟨_, ?_, Or.inl rfl⟩
      simp only [_format_block]
      rw [hfs]
      simp
    · refine ⟨_, ?_, Or.inr rfl⟩
      simp only [_format_block]
      rw [hfs, hfe]
      simp

/-- C1 witness: a file with no sentinel lines at all. -/
theorem format_block_missing_marker_witness :
    ∃ msg,
      _format_block "doc/qutebrowser.1.asciidoc" "options" ["new line"]
          ⟨["hello", "world"], false⟩ =
        (Except.error msg,
         { content := ["hello", "world"], tmpExists := false }) ∧
      (msg = "Marker '" ++ startMarker (pyUpper "options") ++
          "' not found in '" ++ "doc/qutebrowser.1.asciidoc" ++ "'!" ∨
       msg = "Marker '" ++ endMarker (pyUpper "options") ++
          "' not found in '" ++ "doc/qutebrowser.1.asciidoc" ++ "'!") :=
  format_block_missing_marker "doc/qutebrowser.1.asciidoc" "options"
    ["new line"] ⟨["hello", "world"], false⟩ (Or.inl (by decide))

/-- C2: on a file with exactly one start sentinel followed later by exactly
one end sentinel, `_format_block` with content `X` yields
prefix + start line + `X` + end line + suffix; applying it again with `Y`
(where `X` holds no sentinel line) replaces `X` by `Y` and changes nothing
outside the sentinels. -/
theorem format_block_roundtrip (filename what : String)
    (pre mid suf X Y : List String) (s e : String) (t : Bool)
    (hs : pyStrip s = startMarker (pyUpper what))
    (hse : pyStrip s ≠ endMarker (pyUpper what))
    (he : pyStrip e = endMarker (pyUpper what))
    (hes : pyStrip e ≠ startMarker (pyUpper what))
    (hpre : ∀ l ∈ pre, pyStrip l ≠ startMarker (pyUpper what) ∧
        pyStrip l ≠ endMarker (pyUpper what))
    (hmid : ∀ l ∈ mid, pyStrip l ≠ startMarker (pyUpper what) ∧
        pyStrip l ≠ endMarker (pyUpper what))
    (hsuf : ∀ l ∈ suf, pyStrip l ≠ startMarker (pyUpper what) ∧
        pyStrip l ≠ endMarker (pyUpper what))
    (hX : ∀ l ∈ X, pyStrip l ≠ startMarker (pyUpper what) ∧
        pyStrip l ≠ endMarker (pyUpper what)) :
    _format_block filename what X ⟨pre ++ s :: (mid ++ e :: suf), t⟩ =
      (Except.ok (), ⟨pre ++ s :: (X ++ e :: suf), false⟩) ∧
    _format_block filename what Y ⟨pre ++ s :: (X ++ e :: suf), false⟩ =
      (Except.ok (), ⟨pre ++ s :: (Y ++ e :: suf), false⟩) := by
  constructor
  · simp only [_format_block]
    rw [fbLoop_replace _ _ X pre mid suf s e hs he hes hpre hmid hsuf]
    simp
  · simp only [_format_block]
    rw [fbLoop_replace _ _ Y pre X suf s e hs he hes hpre hX hsuf]
    simp

/-- C2 witness: a concrete five-line file patched with one-line contents. -/
theorem format_block_roundtrip_witness :
    _format_block "x.adoc" "foo" ["X content"]
        ⟨["before"] ++ "// QUTE_FOO_START" ::
          (["old"] ++ "// QUTE_FOO_END" :: ["after"]), true⟩ =
      (Except.ok (), ⟨["before"] ++ "// QUTE_FOO_START" ::
        (["X content"] ++ "// QUTE_FOO_END" :: ["after"]), false⟩) ∧
    _format_block "x.adoc" "foo" ["Y content"]
        ⟨["before"] ++ "// QUTE_FOO_START" ::
          (["X content"] ++ "// QUTE_FOO_END" :: ["after"]), false⟩ =
      (Except.ok (), ⟨["before"] ++ "// QUTE_FOO_START" ::
        (["Y content"] ++ "// QUTE_FOO_END" :: ["after"]), false⟩) :=
  format_block_roundtrip "x.adoc" "foo" ["before"] ["old"] ["after"]
    ["X content"] ["Y content"] "// QUTE_FOO_START" "// QUTE_FOO_END" true
    (by decide) (by decide) (by decide) (by decide)
    (by decide) (by decide) (by decide) (by decide)

/-- C10: `_format_block` never checks that the start sentinel precedes the
end sentinel.  On a file where the end sentinel line occurs before the start
sentinel line (both present exactly once) it raises no error, copies every
original line, and inserts the new content right after the start-sentinel
line. -/
theorem format_block_end_before_start (filename what : String)
    (data : List String) (pre mid suf : List String) (s e : String) (t : Bool)
    (hs : pyStrip s = startMarker (pyUpper what))
    (hse : pyStrip s ≠ endMarker (pyUpper what))
    (he : pyStrip e = endMarker (pyUpper what))
    (hes : pyStrip e ≠ startMarker (pyUpper what))
    (hpre : ∀ l ∈ pre, pyStrip l ≠ startMarker (pyUpper what) ∧
        pyStrip l ≠ endMarker (pyUpper what))
    (hmid : ∀ l ∈ mid, pyStrip l ≠ startMarker (pyUpper what) ∧
        pyStrip l ≠ endMarker (pyUpper what))
    (hsuf : ∀ l ∈ suf, pyStrip l ≠ startMarker (pyUpper what) ∧
        pyStrip l ≠ endMarker (pyUpper what)) :
    _format_block filename what data ⟨pre ++ e :: (mid ++ s :: suf), t⟩ =
      (Except.ok (), ⟨pre ++ e :: (mid ++ s :: (data ++ suf)), false⟩) := by
  simp only [_format_block]
  rw [fbLoop_reversed _ _ data pre mid suf s e hs he hes hpre hmid hsuf]
  simp

/-- C10 witness: end sentinel on line 2, start sentinel on line 4. -/
theorem format_block_end_before_start_witness :
    _format_block "x.adoc" "foo" ["inserted"]
        ⟨["before"] ++ "// QUTE_FOO_END" ::
          (["between"] ++ "// QUTE_FOO_START" :: ["after"]), false⟩ =
      (Except.ok (), ⟨["before"] ++ "// QUTE_FOO_END" ::
        (["between"] ++ "// QUTE_FOO_START" ::
          (["inserted"] ++ ["after"])), false⟩) :=
  format_block_end_before_start "x.adoc" "foo" ["inserted"]
    ["before"] ["between"] ["after"] "// QUTE_FOO_START" "// QUTE_FOO_END"
    false (by decide) (by decide) (by decide) (by decide)
    (by decide) (by decide) (by decide)

/-- Restoring the saved option strings after patching yields exactly the
original action objects. -/
theorem format_actions_usage_restores (sf : List Action → String) :
    ∀ as : List Action, (_format_actions_usage sf as).2 = as
  | [] => rfl
  | a :: as => by
    have ih := format_actions_usage_restores sf as
    simp only [_format_actions_usage] at ih ⊢
    simp only [List.map_cons, List.zip_cons_cons] at ih ⊢
    rw [ih]

/-- C3: for an argparse action with non-suppressed help, the argument
string follows the arity-driven rule: arity `None` gives the bare metavar,
`?` wraps it in brackets, `*` gives `[MV [MV ...]]`, `+` gives
`MV [MV ...]`, `...` gives a literal ellipsis, and an exact integer `N`
repeats the metavar `N` times; a tuple metavar is used positionally and a
single string metavar is broadcast across the needed arity. -/
theorem format_action_args_arity (a : Action) (h : a.help ≠ SUPPRESS) :
    (a.nargs = Nargs.none →
      _format_action_args a = _get_action_metavar a 1) ∧
    (a.nargs = Nargs.optional →
      _format_action_args a = "[" ++ _get_action_metavar a 1 ++ "]") ∧
    (a.nargs = Nargs.zeroOrMore →
      _format_action_args a =
        "[" ++ _get_action_metavar a 1 ++ " [" ++
          _get_action_metavar a 1 ++ " ...]]") ∧
    (a.nargs = Nargs.oneOrMore →
      _format_action_args a =
        _get_action_metavar a 1 ++ " [" ++
          _get_action_metavar a 1 ++ " ...]") ∧
    (a.nargs = Nargs.remainder → _format_action_args a = "...") ∧
    (∀ n, a.nargs = Nargs.exact n →
      _format_action_args a = _get_action_metavar a n) ∧
    (∀ n s, a.metavar = Metavar.str s →
      _get_action_metavar a n =
        String.intercalate " " (List.replicate n ("'" ++ s ++ "'"))) ∧
    (∀ n t, a.metavar = Metavar.tuple t →
      _get_action_metavar a n =
        String.intercalate " " (t.map (fun el => "'" ++ el ++ "'"))) := by
  refine ⟨?_, ?_, ?_, ?_, ?_, ?_, ?_, ?_⟩ <;> intros <;>
    simp_all [_format_action_args, _get_action_metavar]

/-- C3 witness: arity `*` with the explicit string metavar `MV`. -/
theorem format_action_args_arity_witness :
    _format_action_args (Action.mk "dest" ["--opt"] (Metavar.str "MV")
        Option.none Nargs.zeroOrMore "some help") =
      "[" ++ _get_action_metavar (Action.mk "dest" ["--opt"]
        (Metavar.str "MV") Option.none Nargs.zeroOrMore "some help") 1 ++
      " [" ++ _get_action_metavar (Action.mk "dest" ["--opt"]
        (Metavar.str "MV") Option.none Nargs.zeroOrMore "some help") 1 ++
      " ...]]" :=
  (format_action_args_arity
    (Action.mk "dest" ["--opt"] (Metavar.str "MV") Option.none
      Nargs.zeroOrMore "some help") (by decide)).2.2.1 rfl

/-- C8: an action whose help equals the suppression sentinel is rendered as
`None` by `_format_action`, and the group content of `regenerate_manpage`
omits it entirely. -/
theorem format_action_suppressed (a : Action) (g : ArgGroup)
    (pre post : List Action) (h : a.help = SUPPRESS)
    (hg : g.group_actions = pre ++ a :: post) :
    _format_action a = Option.none ∧
    groupData g = groupData { g with group_actions := pre ++ post } := by
  have hfa : _format_action a = Option.none := by
    simp [_format_action, h]
  refine ⟨hfa, ?_⟩
  simp [groupData, hg, List.filterMap_append, List.filterMap_cons, hfa]

/-- C8 witness: a suppressed action between two visible ones. -/
theorem format_action_suppressed_witness :
    _format_action (Action.mk "hidden" ["--hidden"] Metavar.none
      Option.none Nargs.none SUPPRESS) = Option.none ∧
    groupData (ArgGroup.mk "optional arguments" Option.none
      ([Action.mk "a" ["-a"] Metavar.none Option.none (Nargs.exact 0) "ha"]
        ++ (Action.mk "hidden" ["--hidden"] Metavar.none Option.none
              Nargs.none SUPPRESS) ::
          [Action.mk "b" ["-b"] Metavar.none Option.none (Nargs.exact 0)
            "hb"])) =
    groupData (ArgGroup.mk "optional arguments" Option.none
      ([Action.mk "a" ["-a"] Metavar.none Option.none (Nargs.exact 0) "ha"]
        ++ [Action.mk "b" ["-b"] Metavar.none Option.none (Nargs.exact 0)
          "hb"])) :=
  format_action_suppressed
    (Action.mk "hidden" ["--hidden"] Metavar.none Option.none Nargs.none
      SUPPRESS)
    (ArgGroup.mk "optional arguments" Option.none
      ([Action.mk "a" ["-a"] Metavar.none Option.none (Nargs.exact 0) "ha"]
        ++ (Action.mk "hidden" ["--hidden"] Metavar.none Option.none
              Nargs.none SUPPRESS) ::
          [Action.mk "b" ["-b"] Metavar.none Option.none (Nargs.exact 0)
            "hb"]))
    [Action.mk "a" ["-a"] Metavar.none Option.none (Nargs.exact 0) "ha"]
    [Action.mk "b" ["-b"] Metavar.none Option.none (Nargs.exact 0) "hb"]
    rfl rfl

/-- C9: rendering a usage line leaves the shared metadata unchanged: after
`_format_actions_usage` the action objects equal their pre-call values, and
after ` _get_cmd_syntax` the command (in particular its parser's
`formatter_class`) equals its pre-call value. -/
theorem usage_rendering_restores_state
    (superFormat : List Action → String) (actions : List Action)
    (name : String) (cmd : Command) :
    (_format_actions_usage superFormat actions).2 = actions ∧
    ( _get_cmd_syntax name cmd).2 = cmd ∧
    ( _get_cmd_syntax name cmd).2.parser.formatter_class =
      cmd.parser.formatter_class :=
  ⟨format_actions_usage_restores superFormat actions, rfl, rfl⟩

/-- C4: backend-availability rules of `_generate_setting_backend_info`:
a present per-backend override mapping takes precedence (`True` gives no
notice, `False` the unavailable notice, any other value the
requires-or-newer notice); otherwise the simple list gives no notice for
both backends, exactly the QtWebKit-only or QtWebEngine-only notice for the
two singletons, and an error for any other value. -/
theorem setting_backend_info_rules (opt : Opt) :
    (∀ items, opt.raw_backends = Option.some items →
      _generate_setting_backend_info opt =
        Except.ok (items.flatMap (fun p =>
          match p.2 with
          | BackendCond.whenTrue => []
          | BackendCond.whenFalse =>
              ["\nOn " ++ p.1 ++ ", this setting is unavailable.\n"]
          | BackendCond.version v =>
              ["\nOn " ++ p.1 ++ ", this setting requires " ++ v ++
                " or newer.\n"]))) ∧
    (opt.raw_backends = Option.none →
      (opt.backends = [Backend.QtWebKit, Backend.QtWebEngine] →
        _generate_setting_backend_info opt = Except.ok []) ∧
      (opt.backends = [Backend.QtWebKit] →
        _generate_setting_backend_info opt = Except.ok
          ["\nThis setting is only available with the QtWebKit backend.\n"]) ∧
      (opt.backends = [Backend.QtWebEngine] →
        _generate_setting_backend_info opt = Except.ok
          ["\nThis setting is only available with the QtWebEngine backend.\n"]) ∧
      (opt.backends ≠ [Backend.QtWebKit, Backend.QtWebEngine] →
        opt.backends ≠ [Backend.QtWebKit] →
        opt.backends ≠ [Backend.QtWebEngine] →
        ∃ msg, _generate_setting_backend_info opt = Except.error msg)) := by
  rcases opt with ⟨raw, bs⟩
  constructor
  · intro items hraw
    simp only at hraw
    subst hraw
    rfl
  · intro hraw
    simp only at hraw
    subst hraw
    refine ⟨?_, ?_, ?_, ?_⟩
    · intro hbs
      simp only at hbs
      subst hbs
      rfl
    · intro hbs
      simp only at hbs
      subst hbs
      rfl
    · intro hbs
      simp only at hbs
      subst hbs
      rfl
    · intro h1 h2 h3
      have h1' : bs ≠ [Backend.QtWebKit, Backend.QtWebEngine] := h1
      have h2' : bs ≠ [Backend.QtWebKit] := h2
      have h3' : bs ≠ [Backend.QtWebEngine] := h3
      refine ⟨"Invalid value " ++ backendListRepr bs ++
        " for opt.backends", ?_⟩
      simp only [_generate_setting_backend_info]
      rw [if_neg h1', if_neg h2', if_neg h3']

/-- C4 witness: the simple list `[QtWebKit]` produces exactly the
QtWebKit-only notice. -/
theorem setting_backend_info_rules_witness :
    _generate_setting_backend_info (Opt.mk Option.none [Backend.QtWebKit]) =
      Except.ok
        ["\nThis setting is only available with the QtWebKit backend.\n"] :=
  ((setting_backend_info_rules
      (Opt.mk Option.none [Backend.QtWebKit])).2 rfl).2.1 rfl

/-- Success characterisation of the positional-argument loop: it succeeds
iff every positional arg key has a description. -/
theorem posArgLines_ok_iff (cmdName : String) (descs : List (String × String)) :
    ∀ args : List (String × String),
      (∃ ls, posArgLines cmdName descs args = Except.ok ls) ↔
        ∀ pa ∈ args, lookupDesc descs pa.1 ≠ Option.none
  | [] => by simp [posArgLines]
  | (arg, nm) :: rest => by
    have ih := posArgLines_ok_iff cmdName descs rest
    cases hl : lookupDesc descs arg with
    | none =>
      simp only [posArgLines, hl]
      constructor
      · rintro ⟨ls, h⟩
        cases h
      · intro hall
        exact absurd hl (hall (arg, nm) (List.mem_cons_self _ _))
    | some d =>
      simp only [posArgLines, hl]
      cases hrest : posArgLines cmdName descs rest with
      | ok ls =>
        simp only [hrest, Except.map]
        constructor
        · intro _ pa hpa
          rcases List.mem_cons.mp hpa with h | h
          · rw [h]
            simp [hl]
          · exact (ih.mp ⟨ls, hrest⟩) pa h
        · intro _
          exact ⟨_, rfl⟩
      | error m =>
        simp only [hrest, Except.map]
        constructor
        · rintro ⟨ls, h⟩
          cases h
        · intro hall
          rcases ih.mpr (fun pa hpa => hall pa (List.mem_cons_of_mem _ hpa))
            with ⟨ls, h⟩
          rw [h] at hrest
          cases hrest

/-- On failure the positional-argument loop names a missing key and the
command. -/
theorem posArgLines_error (cmdName : String) (descs : List (String × String)) :
    ∀ (args : List (String × String)) (msg : String),
      posArgLines cmdName descs args = Except.error msg →
        ∃ pa ∈ args, lookupDesc descs pa.1 = Option.none ∧
          msg = "No description for arg '" ++ pa.1 ++ "' of command '" ++
            cmdName ++ "'!"
  | [] => by simp [posArgLines]
  | (arg, nm) :: rest => by
    intro msg
    cases hl : lookupDesc descs arg with
    | none =>
      simp only [posArgLines, hl]
      intro h
      injection h with hmsg
      exact ⟨(arg, nm), List.mem_cons_self _ _, hl, hmsg.symm⟩
    | some d =>
      simp only [posArgLines, hl]
      cases hrest : posArgLines cmdName descs rest with
      | ok ls =>
        simp only [hrest, Except.map]
        intro h
        cases h
      | error m =>
        simp only [hrest, Except.map]
        intro h
        injection h with hmsg
        rcases posArgLines_error cmdName descs rest m hrest with
          ⟨pa, hpa, hlk, hm⟩
        exact ⟨pa, List.mem_cons_of_mem _ hpa, hlk, hmsg ▸ hm⟩

/-- Success characterisation of the optional-argument loop. -/
theorem optArgLines_ok_iff (cmdName : String) (descs : List (String × String)) :
    ∀ args : List (String × (String × String)),
      (∃ ls, optArgLines cmdName descs args = Except.ok ls) ↔
        ∀ oa ∈ args, lookupDesc descs oa.1 ≠ Option.none
  | [] => by simp [optArgLines]
  | (arg, (lf, sf)) :: rest => by
    have ih := optArgLines_ok_iff cmdName descs rest
    cases hl : lookupDesc descs arg with
    | none =>
      simp only [optArgLines, hl]
      constructor
      · rintro ⟨ls, h⟩
        cases h
      · intro hall
        exact absurd hl (hall (arg, (lf, sf)) (List.mem_cons_self _ _))
    | some d =>
      simp only [optArgLines, hl]
      cases hrest : optArgLines cmdName descs rest with
      | ok ls =>
        simp only [hrest, Except.map]
        constructor
        · intro _ oa hoa
          rcases List.mem_cons.mp hoa with h | h
          · rw [h]
            simp [hl]
          · exact (ih.mp ⟨ls, hrest⟩) oa h
        · intro _
          exact ⟨_, rfl⟩
      | error m =>
        simp only [hrest, Except.map]
        constructor
        · rintro ⟨ls, h⟩
          cases h
        · intro hall
          rcases ih.mpr (fun oa hoa => hall oa (List.mem_cons_of_mem _ hoa))
            with ⟨ls, h⟩
          rw [h] at hrest
          cases hrest

/-- On failure the optional-argument loop names a missing key and the
command. -/
theorem optArgLines_error (cmdName : String) (descs : List (String × String)) :
    ∀ (args : List (String × (String × String))) (msg : String),
      optArgLines cmdName descs args = Except.error msg →
        ∃ oa ∈ args, lookupDesc descs oa.1 = Option.none ∧
          msg = "No description for arg '" ++ oa.1 ++ "' of command '" ++
            cmdName ++ "'!"
  | [] => by simp [optArgLines]
  | (arg, (lf, sf)) :: rest => by
    intro msg
    cases hl : lookupDesc descs arg with
    | none =>
      simp only [optArgLines, hl]
      intro h
      injection h with hmsg
      exact ⟨(arg, (lf, sf)), List.mem_cons_self _ _, hl, hmsg.symm⟩
    | some d =>
      simp only [optArgLines, hl]
      cases hrest : optArgLines cmdName descs rest with
      | ok ls =>
        simp only [hrest, Except.map]
        intro h
        cases h
      | error m =>
        simp only [hrest, Except.map]
        intro h
        injection h with hmsg
        rcases optArgLines_error cmdName descs rest m hrest with
          ⟨oa, hoa, hlk, hm⟩
        exact ⟨oa, List.mem_cons_of_mem _ hoa, hlk, hmsg ▸ hm⟩

/-- Success characterisation of the count loop: it succeeds iff every count
parameter has a description under its own name or under `count`. -/
theorem countLines_ok_iff (cmdName : String) (descs : List (String × String)) :
    ∀ ps : List Param,
      (∃ ls, countLines cmdName descs ps = Except.ok ls) ↔
        ∀ p ∈ ps, p.is_count = true →
          (lookupDesc descs p.name ≠ Option.none ∨
           lookupDesc descs "count" ≠ Option.none)
  | [] => by simp [countLines]
  | p :: rest => by
    have ih := countLines_ok_iff cmdName descs rest
    by_cases hc : p.is_count = true
    · cases hn : lookupDesc descs p.name with
      | some d =>
        simp only [countLines, if_pos hc, hn]
        cases hrest : countLines cmdName descs rest with
        | ok ls =>
          simp only [hrest, Except.map]
          constructor
          · intro _ q hq hqc
            rcases List.mem_cons.mp hq with h | h
            · rw [h]
              exact Or.inl (by simp [hn])
            · exact (ih.mp ⟨ls, hrest⟩) q h hqc
          · intro _
            exact ⟨_, rfl⟩
        | error m =>
          simp only [hrest, Except.map]
          constructor
          · rintro ⟨ls, h⟩
            cases h
          · intro hall
            rcases ih.mpr
              (fun q hq => hall q (List.mem_cons_of_mem _ hq)) with ⟨ls, h⟩
            rw [h] at hrest
            cases hrest
      | none =>
        by_cases hcnt : lookupDesc descs "count" = Option.none
        · have heval : countLines cmdName descs (p :: rest) =
              Except.error ("No description for count arg '" ++ p.name ++
                "' of command '" ++ cmdName ++ "'!") := by
            simp only [countLines, if_pos hc, hn, hcnt]
          rw [heval]
          constructor
          · rintro ⟨ls, h⟩
            cases h
          · intro hall
            rcases hall p (List.mem_cons_self _ _) hc with h | h
            · exact absurd hn h
            · exact absurd hcnt h
        · obtain ⟨d, hd⟩ := Option.ne_none_iff_exists'.mp hcnt
          have heval : countLines cmdName descs (p :: rest) =
              (countLines cmdName descs rest).map
                (fun ls => ["", "==== count", d] ++ ls) := by
            simp only [countLines, if_pos hc, hn, hd]
          rw [heval]
          cases hrest : countLines cmdName descs rest with
          | ok ls =>
            simp only [hrest, Except.map]
            constructor
            · intro _ q hq hqc
              rcases List.mem_cons.mp hq with h | h
              · exact Or.inr hcnt
              · exact (ih.mp ⟨ls, hrest⟩) q h hqc
            · intro _
              exact ⟨_, rfl⟩
          | error m =>
            simp only [hrest, Except.map]
            constructor
            · rintro ⟨ls, h⟩
              cases h
            · intro hall
              rcases ih.mpr
                (fun q hq => hall q (List.mem_cons_of_mem _ hq)) with ⟨ls, h⟩
              rw [h] at hrest
              cases hrest
    · simp only [countLines, if_neg hc]
      constructor
      · intro hex q hq hqc
        rcases List.mem_cons.mp hq with h | h
        · rw [h] at hqc
          exact absurd hqc hc
        · exact (ih.mp hex) q h hqc
      · intro hall
        exact ih.mpr (fun q hq => hall q (List.mem_cons_of_mem _ hq))

/-- On failure the count loop names the parameter and the command, and both
lookups are indeed missing. -/
theorem countLines_error (cmdName : String) (descs : List (String × String)) :
    ∀ (ps : List Param) (msg : String),
      countLines cmdName descs ps = Except.error msg →
        ∃ p ∈ ps, p.is_count = true ∧
          lookupDesc descs p.name = Option.none ∧
          lookupDesc descs "count" = Option.none ∧
          msg = "No description for count arg '" ++ p.name ++
            "' of command '" ++ cmdName ++ "'!"
  | [] => by simp [countLines]
  | p :: rest => by
    intro msg
    by_cases hc : p.is_count = true
    · cases hn : lookupDesc descs p.name with
      | some d =>
        simp only [countLines, if_pos hc, hn]
        cases hrest : countLines cmdName descs rest with
        | ok ls =>
          simp only [hrest, Except.map]
          intro h
          cases h
        | error m =>
          simp only [hrest, Except.map]
          intro h
          injection h with hmsg
          rcases countLines_error cmdName descs rest m hrest with
            ⟨q, hq, hqc, hq1, hq2, hm⟩
          exact ⟨q, List.mem_cons_of_mem _ hq, hqc, hq1, hq2, hmsg ▸ hm⟩
      | none =>
        by_cases hcnt : lookupDesc descs "count" = Option.none
        · have heval : countLines cmdName descs (p :: rest) =
              Except.error ("No description for count arg '" ++ p.name ++
                "' of command '" ++ cmdName ++ "'!") := by
            simp only [countLines, if_pos hc, hn, hcnt]
          rw [heval]
          intro h
          injection h with hmsg
          exact ⟨p, List.mem_cons_self _ _, hc, hn, hcnt, hmsg.symm⟩
        · obtain ⟨d, hd⟩ := Option.ne_none_iff_exists'.mp hcnt
          have heval : countLines cmdName descs (p :: rest) =
              (countLines cmdName descs rest).map
                (fun ls => ["", "==== count", d] ++ ls) := by
            simp only [countLines, if_pos hc, hn, hd]
          rw [heval]
          cases hrest : countLines cmdName descs rest with
          | ok ls =>
            simp only [hrest, Except.map]
            intro h
            cases h
          | error m =>
            simp only [hrest, Except.map]
            intro h
            injection h with hmsg
            rcases countLines_error cmdName descs rest m hrest with
              ⟨q, hq, hqc, hq1, hq2, hm⟩
            exact ⟨q, List.mem_cons_of_mem _ hq, hqc, hq1, hq2, hmsg ▸ hm⟩
    · simp only [countLines, if_neg hc]
      intro h
      rcases countLines_error cmdName descs rest msg h with
        ⟨q, hq, hqc, hq1, hq2, hm⟩
      exact ⟨q, List.mem_cons_of_mem _ hq, hqc, hq1, hq2, hm⟩

/-- Success characterisation of `_get_command_doc_args`. -/
theorem command_doc_args_ok_iff (cmd : Command) (dp : DocstringParser) :
    (∃ ls, _get_command_doc_args cmd dp = Except.ok ls) ↔
      ((∀ pa ∈ cmd.pos_args, lookupDesc dp.arg_descs pa.1 ≠ Option.none) ∧
       (∀ oa ∈ cmd.opt_args, lookupDesc dp.arg_descs oa.1 ≠ Option.none)) := by
  by_cases hpos : cmd.pos_args = []
  · by_cases hopt : cmd.opt_args = []
    · have heval : _get_command_doc_args cmd dp = Except.ok [] := by
        simp [_get_command_doc_args, hpos, hopt]
      rw [heval]
      constructor
      · intro _
        exact ⟨by simp [hpos], by simp [hopt]⟩
      · intro _
        exact ⟨[], rfl⟩
    · cases hoa : optArgLines cmd.name dp.arg_descs cmd.opt_args with
      | ok ls =>
        have heval : _get_command_doc_args cmd dp =
            Except.ok (["", "==== optional arguments"] ++ ls) := by
          simp [_get_command_doc_args, hpos, hopt, hoa, Except.map]
        rw [heval]
        constructor
        · intro _
          exact ⟨by simp [hpos],
            (optArgLines_ok_iff cmd.name dp.arg_descs cmd.opt_args).mp
              ⟨ls, hoa⟩⟩
        · intro _
          exact ⟨_, rfl⟩
      | error m =>
        have heval : _get_command_doc_args cmd dp = Except.error m := by
          simp [_get_command_doc_args, hpos, hopt, hoa, Except.map]
        rw [heval]
        constructor
        · rintro ⟨ls, h⟩
          cases h
        · rintro ⟨_, hall⟩
          rcases (optArgLines_ok_iff cmd.name dp.arg_descs
            cmd.opt_args).mpr hall with ⟨ls, h⟩
          rw [h] at hoa
          cases hoa
  · cases hpa : posArgLines cmd.name dp.arg_descs cmd.pos_args with
    | error m =>
      have heval : _get_command_doc_args cmd dp = Except.error m := by
        simp [_get_command_doc_args, hpos, hpa, Except.map]
      rw [heval]
      constructor
      · rintro ⟨ls, h⟩
        cases h
      · rintro ⟨hall, _⟩
        rcases (posArgLines_ok_iff cmd.name dp.arg_descs
          cmd.pos_args).mpr hall with ⟨ls, h⟩
        rw [h] at hpa
        cases hpa
    | ok ls =>
      by_cases hopt : cmd.opt_args = []
      · have heval : _get_command_doc_args cmd dp =
            Except.ok (["", "==== positional arguments"] ++ ls) := by
          simp [_get_command_doc_args, hpos, hopt, hpa, Except.map]
        rw [heval]
        constructor
        · intro _
          exact ⟨(posArgLines_ok_iff cmd.name dp.arg_descs
              cmd.pos_args).mp ⟨ls, hpa⟩,
            by simp [hopt]⟩
        · intro _
          exact ⟨_, rfl⟩
      · cases hoa : optArgLines cmd.name dp.arg_descs cmd.opt_args with
        | ok ls2 =>
          have heval : _get_command_doc_args cmd dp =
              Except.ok ((["", "==== positional arguments"] ++ ls) ++
                (["", "==== optional arguments"] ++ ls2)) := by
            simp [_get_command_doc_args, hpos, hopt, hpa, hoa, Except.map]
          rw [heval]
          constructor
          · intro _
            exact ⟨(posArgLines_ok_iff cmd.name dp.arg_descs
                cmd.pos_args).mp ⟨ls, hpa⟩,
              (optArgLines_ok_iff cmd.name dp.arg_descs
                cmd.opt_args).mp ⟨ls2, hoa⟩⟩
          · intro _
            exact ⟨_, rfl⟩
        | error m =>
          have heval : _get_command_doc_args cmd dp = Except.error m := by
            simp [_get_command_doc_args, hpos, hopt, hpa, hoa, Except.map]
          rw [heval]
          constructor
          · rintro ⟨ls', h⟩
            cases h
          · rintro ⟨_, hall⟩
            rcases (optArgLines_ok_iff cmd.name dp.arg_descs
              cmd.opt_args).mpr hall with ⟨ls', h⟩
            rw [h] at hoa
            cases hoa

/-- On failure `_get_command_doc_args` names a missing referenced key and
the command. -/
theorem command_doc_args_error (cmd : Command) (dp : DocstringParser)
    (msg : String) (h : _get_command_doc_args cmd dp = Except.error msg) :
    ∃ arg, (arg ∈ cmd.pos_args.map Prod.fst ∨
        arg ∈ cmd.opt_args.map Prod.fst) ∧
      lookupDesc dp.arg_descs arg = Option.none ∧
      msg = "No description for arg '" ++ arg ++ "' of command '" ++
        cmd.name ++ "'!" := by
  by_cases hpos : cmd.pos_args = []
  · cases hoa : optArgLines cmd.name dp.arg_descs cmd.opt_args with
    | ok ls =>
      by_cases hopt : cmd.opt_args = []
      · have heval : _get_command_doc_args cmd dp = Except.ok [] := by
          simp [_get_command_doc_args, hpos, hopt]
        rw [heval] at h
        cases h
      · have heval : _get_command_doc_args cmd dp =
            Except.ok (["", "==== optional arguments"] ++ ls) := by
          simp [_get_command_doc_args, hpos, hopt, hoa, Except.map]
        rw [heval] at h
        cases h
    | error m =>
      by_cases hopt : cmd.opt_args = []
      · have heval : _get_command_doc_args cmd dp = Except.ok [] := by
          simp [_get_command_doc_args, hpos, hopt]
        rw [heval] at h
        cases h
      · have heval : _get_command_doc_args cmd dp = Except.error m := by
          simp [_get_command_doc_args, hpos, hopt, hoa, Except.map]
        rw [heval] at h
        injection h with hmsg
        rcases optArgLines_error cmd.name dp.arg_descs cmd.opt_args m hoa
          with ⟨oa, hmem, hlk, hm⟩
        exact ⟨oa.1, Or.inr (List.mem_map_of_mem Prod.fst hmem), hlk,
          hmsg ▸ hm⟩
  · cases hpa : posArgLines cmd.name dp.arg_descs cmd.pos_args with
    | error m =>
      have heval : _get_command_doc_args cmd dp = Except.error m := by
        simp [_get_command_doc_args, hpos, hpa, Except.map]
      rw [heval] at h
      injection h with hmsg
      rcases posArgLines_error cmd.name dp.arg_descs cmd.pos_args m hpa
        with ⟨pa, hmem, hlk, hm⟩
      exact ⟨pa.1, Or.inl (List.mem_map_of_mem Prod.fst hmem), hlk,
        hmsg ▸ hm⟩
    | ok ls =>
      by_cases hopt : cmd.opt_args = []
      · have heval : _get_command_doc_args cmd dp =
            Except.ok (["", "==== positional arguments"] ++ ls) := by
          simp [_get_command_doc_args, hpos, hopt, hpa, Except.map]
        rw [heval] at h
        cases h
      · cases hoa : optArgLines cmd.name dp.arg_descs cmd.opt_args with
        | ok ls2 =>
          have heval : _get_command_doc_args cmd dp =
              Except.ok ((["", "==== positional arguments"] ++ ls) ++
                (["", "==== optional arguments"] ++ ls2)) := by
            simp [_get_command_doc_args, hpos, hopt, hpa, hoa, Except.map]
          rw [heval] at h
          cases h
        | error m =>
          have heval : _get_command_doc_args cmd dp = Except.error m := by
            simp [_get_command_doc_args, hpos, hopt, hpa, hoa, Except.map]
          rw [heval] at h
          injection h with hmsg
          rcases optArgLines_error cmd.name dp.arg_descs cmd.opt_args m hoa
            with ⟨oa, hmem, hlk, hm⟩
          exact ⟨oa.1, Or.inr (List.mem_map_of_mem Prod.fst hmem), hlk,
            hmsg ▸ hm⟩

/-- C5: the command-documentation generator raises a descriptive error
naming the missing key and the command whenever a referenced positional or
optional argument key (or, for a count parameter, both the parameter name
and the fallback key `count`) has no description, and succeeds exactly when
every referenced key has one. -/
theorem command_doc_missing_descriptions (cmd : Command) :
    ((∃ ls, _get_command_doc_args cmd cmd.docstring = Except.ok ls) ↔
      ((∀ pa ∈ cmd.pos_args,
          lookupDesc cmd.docstring.arg_descs pa.1 ≠ Option.none) ∧
       (∀ oa ∈ cmd.opt_args,
          lookupDesc cmd.docstring.arg_descs oa.1 ≠ Option.none))) ∧
    (∀ msg, _get_command_doc_args cmd cmd.docstring = Except.error msg →
      ∃ arg, (arg ∈ cmd.pos_args.map Prod.fst ∨
          arg ∈ cmd.opt_args.map Prod.fst) ∧
        lookupDesc cmd.docstring.arg_descs arg = Option.none ∧
        msg = "No description for arg '" ++ arg ++ "' of command '" ++
          cmd.name ++ "'!") ∧
    ((∃ ls, _get_command_doc_count cmd cmd.docstring = Except.ok ls) ↔
      ∀ p ∈ cmd.params, p.is_count = true →
        (lookupDesc cmd.docstring.arg_descs p.name ≠ Option.none ∨
         lookupDesc cmd.docstring.arg_descs "count" ≠ Option.none)) ∧
    (∀ msg, _get_command_doc_count cmd cmd.docstring = Except.error msg →
      ∃ p ∈ cmd.params, p.is_count = true ∧
        lookupDesc cmd.docstring.arg_descs p.name = Option.none ∧
        lookupDesc cmd.docstring.arg_descs "count" = Option.none ∧
        msg = "No description for count arg '" ++ p.name ++
          "' of command '" ++ cmd.name ++ "'!") :=
  ⟨command_doc_args_ok_iff cmd cmd.docstring,
   fun msg h => command_doc_args_error cmd cmd.docstring msg h,
   countLines_ok_iff cmd.name cmd.docstring.arg_descs cmd.params,
   fun msg h =>
     countLines_error cmd.name cmd.docstring.arg_descs cmd.params msg h⟩

/-- Membership in the `normal` bucket of the classification loop. -/
theorem mem_classify_normal (p : String × Command) :
    ∀ cmds : List (String × Command),
      p ∈ (classifyCommands cmds).1 ↔
        p ∈ cmds ∧ p.2.deprecated = false ∧ KeyMode.normal ∈ p.2.modes ∧
          p.2.debug = false
  | [] => by simp [classifyCommands]
  | (name, cmd) :: rest => by
    have ih := mem_classify_normal p rest
    by_cases hdep : cmd.deprecated = true
    · have heval : classifyCommands ((name, cmd) :: rest) =
          classifyCommands rest := by
        simp only [classifyCommands]
        rw [if_pos hdep]
      rw [heval]
      constructor
      · intro h
        have hr := ih.mp h
        exact ⟨List.mem_cons_of_mem _ hr.1, hr.2⟩
      · rintro ⟨hmem, h1, h2, h3⟩
        rcases List.mem_cons.mp hmem with he | he
        · rw [he] at h1
          exact absurd hdep (by simp_all)
        · exact ih.mpr ⟨he, h1, h2, h3⟩
    · by_cases hmode : KeyMode.normal ∉ cmd.modes
      · have heval : (classifyCommands ((name, cmd) :: rest)).1 =
            (classifyCommands rest).1 := by
          simp only [classifyCommands]
          rw [if_neg hdep, if_pos hmode]
        rw [heval]
        constructor
        · intro h
          have hr := ih.mp h
          exact ⟨List.mem_cons_of_mem _ hr.1, hr.2⟩
        · rintro ⟨hmem, h1, h2, h3⟩
          rcases List.mem_cons.mp hmem with he | he
          · rw [he] at h2
            exact absurd h2 hmode
          · exact ih.mpr ⟨he, h1, h2, h3⟩
      · by_cases hdbg : cmd.debug = true
        · have heval : (classifyCommands ((name, cmd) :: rest)).1 =
              (classifyCommands rest).1 := by
            simp only [classifyCommands]
            rw [if_neg hdep, if_neg hmode, if_pos hdbg]
          rw [heval]
          constructor
          · intro h
            have hr := ih.mp h
            exact ⟨List.mem_cons_of_mem _ hr.1, hr.2⟩
          · rintro ⟨hmem, h1, h2, h3⟩
            rcases List.mem_cons.mp hmem with he | he
            · rw [he] at h3
              exact absurd hdbg (by simp_all)
            · exact ih.mpr ⟨he, h1, h2, h3⟩
        · have heval : (classifyCommands ((name, cmd) :: rest)).1 =
              (name, cmd) :: (classifyCommands rest).1 := by
            simp only [classifyCommands]
            rw [if_neg hdep, if_neg hmode, if_neg hdbg]
          rw [heval]
          constructor
          · intro h
            rcases List.mem_cons.mp h with he | he
            · refine ⟨by rw [he]; exact List.mem_cons_self _ _, ?_, ?_, ?_⟩
              · rw [he]
                simp_all [Bool.not_eq_true]
              · rw [he]
                simp_all
              · rw [he]
                simp_all [Bool.not_eq_true]
            · have hr := ih.mp he
              exact ⟨List.mem_cons_of_mem _ hr.1, hr.2⟩
          · rintro ⟨hmem, h1, h2, h3⟩
            rcases List.mem_cons.mp hmem with he | he
            · rw [he]
              exact List.mem_cons_self _ _
            · exact List.mem_cons_of_mem _ (ih.mpr ⟨he, h1, h2, h3⟩)

/-- Membership in the `other` bucket of the classification loop. -/
theorem mem_classify_other (p : String × Command) :
    ∀ cmds : List (String × Command),
      p ∈ (classifyCommands cmds).2.1 ↔
        p ∈ cmds ∧ p.2.deprecated = false ∧ KeyMode.normal ∉ p.2.modes
  | [] => by simp [classifyCommands]
  | (name, cmd) :: rest => by
    have ih := mem_classify_other p rest
    by_cases hdep : cmd.deprecated = true
    · have heval : classifyCommands ((name, cmd) :: rest) =
          classifyCommands rest := by
        simp only [classifyCommands]
        rw [if_pos hdep]
      rw [heval]
      constructor
      · intro h
        have hr := ih.mp h
        exact ⟨List.mem_cons_of_mem _ hr.1, hr.2⟩
      · rintro ⟨hmem, h1, h2⟩
        rcases List.mem_cons.mp hmem with he | he
        · rw [he] at h1
          exact absurd hdep (by simp_all)
        · exact ih.mpr ⟨he, h1, h2⟩
    · by_cases hmode : KeyMode.normal ∉ cmd.modes
      · have heval : (classifyCommands ((name, cmd) :: rest)).2.1 =
            (name, cmd) :: (classifyCommands rest).2.1 := by
          simp only [classifyCommands]
          rw [if_neg hdep, if_pos hmode]
        rw [heval]
        constructor
        · intro h
          rcases List.mem_cons.mp h with he | he
          · refine ⟨by rw [he]; exact List.mem_cons_self _ _, ?_, ?_⟩
            · rw [he]
              simp_all [Bool.not_eq_true]
            · rw [he]
              exact hmode
          · have hr := ih.mp he
            exact ⟨List.mem_cons_of_mem _ hr.1, hr.2⟩
        · rintro ⟨hmem, h1, h2⟩
          rcases List.mem_cons.mp hmem with he | he
          · rw [he]
            exact List.mem_cons_self _ _
          · exact List.mem_cons_of_mem _ (ih.mpr ⟨he, h1, h2⟩)
      · by_cases hdbg : cmd.debug = true
        · have heval : (classifyCommands ((name, cmd) :: rest)).2.1 =
              (classifyCommands rest).2.1 := by
            simp only [classifyCommands]
            rw [if_neg hdep, if_neg hmode, if_pos hdbg]
          rw [heval]
          constructor
          · intro h
            have hr := ih.mp h
            exact ⟨List.mem_cons_of_mem _ hr.1, hr.2⟩
          · rintro ⟨hmem, h1, h2⟩
            rcases List.mem_cons.mp hmem with he | he
            · rw [he] at h2
              exact absurd h2 (by simp_all)
            · exact ih.mpr ⟨he, h1, h2⟩
        · have heval : (classifyCommands ((name, cmd) :: rest)).2.1 =
              (classifyCommands rest).2.1 := by
            simp only [classifyCommands]
            rw [if_neg hdep, if_neg hmode, if_neg hdbg]
          rw [heval]
          constructor
          · intro h
            have hr := ih.mp h
            exact ⟨List.mem_cons_of_mem _ hr.1, hr.2⟩
          · rintro ⟨hmem, h1, h2⟩
            rcases List.mem_cons.mp hmem with he | he
            · rw [he] at h2
              exact absurd h2 (by simp_all)
            · exact ih.mpr ⟨he, h1, h2⟩

/-- Membership in the `debug` bucket of the classification loop. -/
theorem mem_classify_debug (p : String × Command) :
    ∀ cmds : List (String × Command),
      p ∈ (classifyCommands cmds).2.2 ↔
        p ∈ cmds ∧ p.2.deprecated = false ∧ KeyMode.normal ∈ p.2.modes ∧
          p.2.debug = true
  | [] => by simp [classifyCommands]
  | (name, cmd) :: rest => by
    have ih := mem_classify_debug p rest
    by_cases hdep : cmd.deprecated = true
    · have heval : classifyCommands ((name, cmd) :: rest) =
          classifyCommands rest := by
        simp only [classifyCommands]
        rw [if_pos hdep]
      rw [heval]
      constructor
      · intro h
        have hr := ih.mp h
        exact ⟨List.mem_cons_of_mem _ hr.1, hr.2⟩
      · rintro ⟨hmem, h1, h2, h3⟩
        rcases List.mem_cons.mp hmem with he | he
        · rw [he] at h1
          exact absurd hdep (by simp_all)
        · exact ih.mpr ⟨he, h1, h2, h3⟩
    · by_cases hmode : KeyMode.normal ∉ cmd.modes
      · have heval : (classifyCommands ((name, cmd) :: rest)).2.2 =
            (classifyCommands rest).2.2 := by
          simp only [classifyCommands]
          rw [if_neg hdep, if_pos hmode]
        rw [heval]
        constructor
        · intro h
          have hr := ih.mp h
          exact ⟨List.mem_cons_of_mem _ hr.1, hr.2⟩
        · rintro ⟨hmem, h1, h2, h3⟩
          rcases List.mem_cons.mp hmem with he | he
          · rw [he] at h2
            exact absurd h2 hmode
          · exact ih.mpr ⟨he, h1, h2, h3⟩
      · by_cases hdbg : cmd.debug = true
        · have heval : (classifyCommands ((name, cmd) :: rest)).2.2 =
              (name, cmd) :: (classifyCommands rest).2.2 := by
            simp only [classifyCommands]
            rw [if_neg hdep, if_neg hmode, if_pos hdbg]
          rw [heval]
          constructor
          · intro h
            rcases List.mem_cons.mp h with he | he
            · refine ⟨by rw [he]; exact List.mem_cons_self _ _, ?_, ?_, ?_⟩
              · rw [he]
                simp_all [Bool.not_eq_true]
              · rw [he]
                simp_all
              · rw [he]
                exact hdbg
            · have hr := ih.mp he
              exact ⟨List.mem_cons_of_mem _ hr.1, hr.2⟩
          · rintro ⟨hmem, h1, h2, h3⟩
            rcases List.mem_cons.mp hmem with he | he
            · rw [he]
              exact List.mem_cons_self _ _
            · exact List.mem_cons_of_mem _ (ih.mpr ⟨he, h1, h2, h3⟩)
        · have heval : (classifyCommands ((name, cmd) :: rest)).2.2 =
              (classifyCommands rest).2.2 := by
            simp only [classifyCommands]
            rw [if_neg hdep, if_neg hmode, if_neg hdbg]
          rw [heval]
          constructor
          · intro h
            have hr := ih.mp h
            exact ⟨List.mem_cons_of_mem _ hr.1, hr.2⟩
          · rintro ⟨hmem, h1, h2, h3⟩
            rcases List.mem_cons.mp hmem with he | he
            · rw [he] at h3
              exact absurd hdbg (by simp_all)
            · exact ih.mpr ⟨he, h1, h2, h3⟩

/-- Dropping the deprecated commands beforehand does not change the
classification. -/
theorem classify_filter_deprecated :
    ∀ cmds : List (String × Command),
      classifyCommands (cmds.filter (fun q => !q.2.deprecated)) =
        classifyCommands cmds
  | [] => rfl
  | (name, cmd) :: rest => by
    have ih := classify_filter_deprecated rest
    by_cases hdep : cmd.deprecated = true
    · have hf : ((name, cmd) :: rest).filter (fun q => !q.2.deprecated) =
          rest.filter (fun q => !q.2.deprecated) := by
        simp [List.filter, hdep]
      rw [hf, ih]
      have heval : classifyCommands ((name, cmd) :: rest) =
          classifyCommands rest := by
        simp only [classifyCommands]
        rw [if_pos hdep]
      rw [heval]
    · have hd : cmd.deprecated = false := by
        rcases h : cmd.deprecated
        · rfl
        · exact absurd h hdep
      have hf : ((name, cmd) :: rest).filter (fun q => !q.2.deprecated) =
          (name, cmd) :: rest.filter (fun q => !q.2.deprecated) := by
        simp [List.filter, hd]
      rw [hf]
      simp only [classifyCommands]
      rw [ih]

/-- C6: every registered non-deprecated command lands in exactly one of the
three buckets, evaluated in order (mode restriction excluding `normal`
first, then the debug flag, else normal) — in particular a command
restricted from the default mode lands in `other` even when its debug flag
is set — and each bucket is sorted lexicographically by command name. -/
theorem command_bucket_classification (cmds : List (String × Command))
    (p : String × Command) :
    (p ∈ (sortedBuckets cmds).2.1 ↔
      p ∈ cmds ∧ p.2.deprecated = false ∧ KeyMode.normal ∉ p.2.modes) ∧
    (p ∈ (sortedBuckets cmds).2.2 ↔
      p ∈ cmds ∧ p.2.deprecated = false ∧ KeyMode.normal ∈ p.2.modes ∧
        p.2.debug = true) ∧
    (p ∈ (sortedBuckets cmds).1 ↔
      p ∈ cmds ∧ p.2.deprecated = false ∧ KeyMode.normal ∈ p.2.modes ∧
        p.2.debug = false) ∧
    List.Sorted (· ≤ ·) ((sortedBuckets cmds).1.map Prod.fst) ∧
    List.Sorted (· ≤ ·) ((sortedBuckets cmds).2.1.map Prod.fst) ∧
    List.Sorted (· ≤ ·) ((sortedBuckets cmds).2.2.map Prod.fst) := by
  have hsorted : ∀ l : List (String × Command),
      List.Sorted (· ≤ ·) ((List.insertionSort cmdLe l).map Prod.fst) := by
    intro l
    have h := List.sorted_insertionSort cmdLe l
    exact List.pairwise_map.mpr h
  refine ⟨?_, ?_, ?_, hsorted _, hsorted _, hsorted _⟩
  · rw [show (sortedBuckets cmds).2.1 =
        List.insertionSort cmdLe (classifyCommands cmds).2.1 from rfl]
    rw [List.mem_insertionSort]
    exact mem_classify_other p cmds
  · rw [show (sortedBuckets cmds).2.2 =
        List.insertionSort cmdLe (classifyCommands cmds).2.2 from rfl]
    rw [List.mem_insertionSort]
    exact mem_classify_debug p cmds
  · rw [show (sortedBuckets cmds).1 =
        List.insertionSort cmdLe (classifyCommands cmds).1 from rfl]
    rw [List.mem_insertionSort]
    exact mem_classify_normal p cmds

/-- C7: a deprecated command appears in no bucket, and the generated
command reference is identical to the one generated from the registry with
all deprecated commands removed — so deprecated commands contribute no
quick-reference row and no detailed section, regardless of their mode or
debug flags. -/
theorem generate_commands_skips_deprecated (commandsModuleDoc : String)
    (cmds : List (String × Command)) (name : String) (c : Command)
    (hdep : c.deprecated = true) :
    generate_commands commandsModuleDoc cmds =
      generate_commands commandsModuleDoc
        (cmds.filter (fun q => !q.2.deprecated)) ∧
    (name, c) ∉ (sortedBuckets cmds).1 ∧
    (name, c) ∉ (sortedBuckets cmds).2.1 ∧
    (name, c) ∉ (sortedBuckets cmds).2.2 := by
  have hb : sortedBuckets (cmds.filter (fun q => !q.2.deprecated)) =
      sortedBuckets cmds := by
    unfold sortedBuckets
    rw [classify_filter_deprecated]
  refine ⟨?_, ?_, ?_, ?_⟩
  · simp only [generate_commands]
    rw [hb]
  · intro hmem
    have hm := (mem_classify_normal (name, c) cmds).mp
      (by simpa [sortedBuckets, List.mem_insertionSort] using hmem)
    exact absurd hm.2.1 (by simp [hdep])
  · intro hmem
    have hm := (mem_classify_other (name, c) cmds).mp
      (by simpa [sortedBuckets, List.mem_insertionSort] using hmem)
    exact absurd hm.2.1 (by simp [hdep])
  · intro hmem
    have hm := (mem_classify_debug (name, c) cmds).mp
      (by simpa [sortedBuckets, List.mem_insertionSort] using hmem)
    exact absurd hm.2.1 (by simp [hdep])

/-- C5 witness: a command with one positional argument and an empty
description lookup raises the descriptive `KeyError`. -/
theorem command_doc_missing_descriptions_witness :
    ∃ arg, (arg ∈ ([("url", "url")] : List (String × String)).map Prod.fst ∨
        arg ∈ ([] : List (String × (String × String))).map Prod.fst) ∧
      lookupDesc [] arg = Option.none ∧
      "No description for arg 'url' of command 'open'!" =
        "No description for arg '" ++ arg ++ "' of command '" ++ "open" ++
          "'!" :=
  (command_doc_missing_descriptions (Command.mk "open" [("url", "url")] []
      [] Option.none false false false [KeyMode.normal] false "Open a URL."
      (DocstringParser.mk "Open a URL." "" [])
      (CmdParser.mk FormatterClass.helpFormatter (fun _ => "")))).2.1
    "No description for arg 'url' of command 'open'!" rfl

/-- C7 witness: a single deprecated command is dropped entirely. -/
theorem generate_commands_skips_deprecated_witness :
    generate_commands "Doc.\n" [("quit", Command.mk "quit" [] [] []
        Option.none false false true [KeyMode.normal] false "Quit."
        (DocstringParser.mk "Quit." "" [])
        (CmdParser.mk FormatterClass.helpFormatter (fun _ => "")))] =
      generate_commands "Doc.\n"
        (([("quit", Command.mk "quit" [] [] []
            Option.none false false true [KeyMode.normal] false "Quit."
            (DocstringParser.mk "Quit." "" [])
            (CmdParser.mk FormatterClass.helpFormatter
              (fun _ => "")))]).filter (fun q => !q.2.deprecated)) ∧
    ("quit", Command.mk "quit" [] [] []
        Option.none false false true [KeyMode.normal] false "Quit."
        (DocstringParser.mk "Quit." "" [])
        (CmdParser.mk FormatterClass.helpFormatter (fun _ => ""))) ∉
      (sortedBuckets [("quit", Command.mk "quit" [] [] []
        Option.none false false true [KeyMode.normal] false "Quit."
        (DocstringParser.mk "Quit." "" [])
        (CmdParser.mk FormatterClass.helpFormatter (fun _ => "")))]).1 ∧
    ("quit", Command.mk "quit" [] [] []
        Option.none false false true [KeyMode.normal] false "Quit."
        (DocstringParser.mk "Quit." "" [])
        (CmdParser.mk FormatterClass.helpFormatter (fun _ => ""))) ∉
      (sortedBuckets [("quit", Command.mk "quit" [] [] []
        Option.none false false true [KeyMode.normal] false "Quit."
        (DocstringParser.mk "Quit." "" [])
        (CmdParser.mk FormatterClass.helpFormatter (fun _ => "")))]).2.1 ∧
    ("quit", Command.mk "quit" [] [] []
        Option.none false false true [KeyMode.normal] false "Quit."
        (DocstringParser.mk "Quit." "" [])
        (CmdParser.mk FormatterClass.helpFormatter (fun _ => ""))) ∉
      (sortedBuckets [("quit", Command.mk "quit" [] [] []
        Option.none false false true [KeyMode.normal] false "Quit."
        (DocstringParser.mk "Quit." "" [])
        (CmdParser.mk FormatterClass.helpFormatter (fun _ => "")))]).2.2 :=
  generate_commands_skips_deprecated "Doc.\n"
    [("quit", Command.mk "quit" [] [] []
        Option.none false false true [KeyMode.normal] false "Quit."
        (DocstringParser.mk "Quit." "" [])
        (CmdParser.mk FormatterClass.helpFormatter (fun _ => "")))]
    "quit"
    (Command.mk "quit" [] [] []
        Option.none false false true [KeyMode.normal] false "Quit."
        (DocstringParser.mk "Quit." "" [])
        (CmdParser.mk FormatterClass.helpFormatter (fun _ => ""))) rfl

end Src2Asciidoc
